import Mathlib

/-!
Verification of the supplier-selection program (`Assignment1.v3.py`).

The Python source is shallowly embedded below:
* floats (`random.random()` outputs, weights) become exact rationals `ℚ`;
* Python's global `random` state becomes an explicit `RNG` record of two
  streams (one for `random.random()` draws, one for `random.choice`
  indices) together with a cursor `k : ℕ` that advances on every draw,
  mirroring the single process-wide random state;
* fallible operations (`random.choice` on an empty list, `list.remove` of
  a missing element, `Dict[affine]` on a missing key) return `Option`,
  with `none` standing for the raised Python exception;
* `Supplier.get_blacklist`/`get_interactions` return copies in Python, so
  list values are passed by value here; the one real alias in the source,
  `best_set = current_set` (line 128), is modelled faithfully by the
  `aliased` flag of `SState`: while the flag is set, an element accepted
  into `current_set` is also appended to `best_set`, exactly as mutation
  of the shared Python list object would do.
-/

/-- `Supplier(label, weight, blacklist, interactions)` from the source:
a label, a weight, the incompatibility list and the compatibility list. -/
structure Supplier where
  label : ℕ
  weight : ℚ
  blacklist : List ℕ
  interactions : List ℕ
deriving DecidableEq

/-- The process-wide randomness source: a stream of `random.random()`
outcomes and a stream of `random.choice` index choices.  A cursor into the
streams is threaded through every function that consumes entropy. -/
structure RNG where
  floats : ℕ → ℚ
  ints : ℕ → ℕ

/-- Python's `round(q, 3)`: round to the nearest multiple of `1/1000`.
(Python rounds ties to even on binary floats; the tie behaviour is never
exercised by any property below, so the half-up `round` of Mathlib is used.) -/
def round3 (q : ℚ) : ℚ := ((round (q * 1000) : ℤ) : ℚ) / 1000

/-- `random_weight()` from the source: `round(random.random(), 3)`.
Consumes the float-stream value at the cursor. -/
def random_weight (r : RNG) (k : ℕ) : ℚ := round3 (r.floats k)

/-- The `while count < n // 2` loop of `create_blacklist`: draw `c` labels
from `white_list` without replacement (`random.choice` + `list.remove`),
appending them to `blacklist`.  `random.choice` on an empty pool raises
`IndexError`, modelled by `none`.  Returns the final pair of lists and the
advanced cursor. -/
def drawLoop (g : ℕ → ℕ) : ℕ → List ℕ → List ℕ → ℕ → Option (List ℕ × List ℕ × ℕ)
  | 0, blacklist, white_list, k => some (blacklist, white_list, k)
  | c + 1, blacklist, white_list, k =>
    if white_list.isEmpty then none
    else
      let number := white_list.getD (g k % white_list.length) 0
      drawLoop g c (blacklist ++ [number]) (white_list.erase number) (k + 1)

/-- `create_blacklist(n, i)` from the source: start from
`white_list = [1, …, n]` with `i` removed (`list.remove` raises on a
missing element, hence the membership guard), then draw `n // 2` labels
into the blacklist. -/
def create_blacklist (n i : ℕ) (g : ℕ → ℕ) (k : ℕ) :
    Option ((List ℕ × List ℕ) × ℕ) :=
  let white_list := List.range' 1 n
  if i ∈ white_list then
    (drawLoop g (n / 2) [] (white_list.erase i) k).map
      (fun t => ((t.1, t.2.1), t.2.2))
  else none

/-- The `for i in range(n)` loop of `create_suppliers`: for each label
build the two lists, then draw the weight (the source calls
`create_blacklist` before `random_weight()`), and insert the supplier
under its label.  Python dict insertion order is kept by using an
association list. -/
def buildLoop (n : ℕ) (r : RNG) :
    List ℕ → List (ℕ × Supplier) → ℕ → Option (List (ℕ × Supplier) × ℕ)
  | [], acc, k => some (acc, k)
  | i :: rest, acc, k =>
    match create_blacklist n i r.ints k with
    | none => none
    | some ((bl, wl), k1) =>
      buildLoop n r rest (acc ++ [(i, ⟨i, random_weight r k1, bl, wl⟩)]) (k1 + 1)

/-- `create_suppliers(n)` from the source: the dictionary
`{1 ↦ Supplier 1, …, n ↦ Supplier n}` built in label order, plus the final
cursor of the randomness source. -/
def create_suppliers (n : ℕ) (r : RNG) (k : ℕ) :
    Option (List (ℕ × Supplier) × ℕ) :=
  buildLoop n r (List.range' 1 n) [] k

/-- `Dict[affine]`: association-list lookup; `none` models `KeyError`. -/
def dictGet (pop : List (ℕ × Supplier)) (l : ℕ) : Option Supplier :=
  (pop.find? (fun p => p.1 = l)).map (fun p => p.2)

/-- The mutable locals of `ExhaustiveSearch` while scanning one seed's
compatibility list: `current_weight`, `interference`, `current_set`,
`best_weight`, `best_set`, and whether `best_set` currently aliases
`current_set` (after `best_set = current_set` ran for this seed). -/
structure SState where
  cw : ℚ
  itf : List ℕ
  cs : List ℕ
  bw : ℚ
  bs : List ℕ
  aliased : Bool
deriving DecidableEq

/-- Lines 113–124 of the source, one candidate `affine`: if it is not in
the interference list, look it up (`KeyError` ↦ `none`), check that no
member of `current_set` is in its blacklist, and on success add its weight,
extend the interference list, and append it to `current_set` (and, through
the alias, to `best_set` when `best_set` is the same object). -/
def acceptPhase (pop : List (ℕ × Supplier)) (s : SState) (affine : ℕ) :
    Option SState :=
  if affine ∈ s.itf then some s
  else
    match dictGet pop affine with
    | none => none
    | some sup =>
      if ∀ i ∈ s.cs, i ∉ sup.blacklist then
        some { s with
          cw := s.cw + sup.weight
          itf := s.itf ++ sup.blacklist
          cs := s.cs ++ [affine]
          bs := if s.aliased then s.bs ++ [affine] else s.bs }
      else some s

/-- Lines 126–128 of the source: after every candidate, accepted or not,
compare non-strictly and overwrite the best state (`best_set =
current_set` creates the alias). -/
def compareUpdate (s : SState) : SState :=
  if s.bw ≤ s.cw then { s with bw := s.cw, bs := s.cs, aliased := true } else s

/-- One full iteration of the `for affine in affines` loop. -/
def searchStep (pop : List (ℕ × Supplier)) (s : SState) (affine : ℕ) :
    Option SState :=
  (acceptPhase pop s affine).map compareUpdate

/-- The whole `for affine in affines` loop. -/
def searchSeedLoop (pop : List (ℕ × Supplier)) :
    List ℕ → SState → Option SState
  | [], s => some s
  | a :: rest, s =>
    match searchStep pop s a with
    | none => none
    | some s1 => searchSeedLoop pop rest s1

/-- One iteration of the outer `for supplier in Dict.values()` loop:
initialise the seed state (fresh `current_set`, so the alias flag resets)
and scan the seed's compatibility list. -/
def runSeed (pop : List (ℕ × Supplier)) (bw : ℚ) (bs : List ℕ)
    (sup : Supplier) : Option (ℚ × List ℕ) :=
  (searchSeedLoop pop sup.interactions
      ⟨sup.weight, sup.blacklist, [sup.label], bw, bs, false⟩).map
    (fun s => (s.bw, s.bs))

/-- The outer loop of `ExhaustiveSearch` over all seeds in insertion
order, threading `(best_weight, best_set)`. -/
def searchLoop (pop : List (ℕ × Supplier)) :
    List (ℕ × Supplier) → ℚ × List ℕ → Option (ℚ × List ℕ)
  | [], b => some b
  | p :: rest, b =>
    match runSeed pop b.1 b.2 p.2 with
    | none => none
    | some b1 => searchLoop pop rest b1

/-- `ExhaustiveSearch(Dict)` from the source: best weight starts at `0`,
best set starts empty; every supplier is tried as a seed; the final best
weight is rounded to 3 decimals. -/
def ExhaustiveSearch (pop : List (ℕ × Supplier)) : Option (ℚ × List ℕ) :=
  (searchLoop pop pop (0, [])).map (fun b => (round3 b.1, b.2))

/-- `generate` followed by `search`, as the benchmarking harness composes
them. -/
def generateAndSearch (n : ℕ) (r : RNG) (k : ℕ) : Option (ℚ × List ℕ) :=
  (create_suppliers n r k).bind (fun p => ExhaustiveSearch p.1)

/-- The population of the worked scenario of the spec (§8), keys in
insertion order 1, 2, 3, 4. -/
def pop4 : List (ℕ × Supplier) :=
  [(1, ⟨1, 1/2, [2], [3, 4]⟩),
   (2, ⟨2, 9/10, [1], [3, 4]⟩),
   (3, ⟨3, 1/5, [4], [1, 2]⟩),
   (4, ⟨4, 1/10, [3], [1, 2]⟩)]

/-- A fixed concrete randomness source used for witnesses: every float
draw yields `1/2`, every choice index is `0`. -/
def rng0 : RNG := ⟨fun _ => 1/2, fun _ => 0⟩

/-- A population is well formed (in the sense of §4.2 of the spec) when
every label mentioned in any compatibility or incompatibility list is a
key of the mapping. -/
def WellFormed (pop : List (ℕ × Supplier)) : Prop :=
  ∀ p ∈ pop, (∀ a ∈ p.2.interactions, ∃ q ∈ pop, q.1 = a) ∧
    (∀ a ∈ p.2.blacklist, ∃ q ∈ pop, q.1 = a)

instance (pop : List (ℕ × Supplier)) : Decidable (WellFormed pop) := by
  unfold WellFormed; infer_instance

/-- Weight of a label in a population (`0` for a missing label); used to
state sum-consistency of the search result. -/
def weightOf (pop : List (ℕ × Supplier)) (l : ℕ) : ℚ :=
  ((dictGet pop l).map Supplier.weight).getD 0

/-- Total weight of a list of labels in a population. -/
def sumWeights (pop : List (ℕ × Supplier)) (ls : List ℕ) : ℚ :=
  (ls.map (weightOf pop)).sum

/-- `q` is an integer multiple of `1/1000` (the shape of every rounded
weight and of every weight sum the program manipulates). -/
def Mul1000 (q : ℚ) : Prop := ∃ z : ℤ, q * 1000 = (z : ℚ)

/-- Every fact about one generated supplier needed by the claims: the
label matches the key and lies in `1..n`, the weight is a rounded float
draw, the blacklist has exactly `⌊n/2⌋` entries, the whitelist the
remaining `n - 1 - ⌊n/2⌋`, and together they are a duplicate-free
rearrangement of all other labels. -/
def EntityOK (n : ℕ) (r : RNG) (p : ℕ × Supplier) : Prop :=
  p.2.label = p.1 ∧ 1 ≤ p.1 ∧ p.1 ≤ n ∧
  (∃ m, p.2.weight = round3 (r.floats m)) ∧
  p.2.blacklist.length = n / 2 ∧
  p.2.interactions.length = n - 1 - n / 2 ∧
  (p.2.blacklist ++ p.2.interactions).Perm ((List.range' 1 n).erase p.1) ∧
  (p.2.blacklist ++ p.2.interactions).Nodup

theorem drawLoop_spec (g : ℕ → ℕ) (c : ℕ) :
    ∀ (bl wl : List ℕ) (k : ℕ), c ≤ wl.length →
    ∃ bl2 wl2, drawLoop g c bl wl k = some (bl2, wl2, k + c) ∧
      bl2.length = bl.length + c ∧ wl2.length = wl.length - c ∧
      (bl2 ++ wl2).Perm (bl ++ wl) := by
  induction c with
  | zero =>
    intro bl wl k _
    exact ⟨bl, wl, rfl, by simp, by simp, List.Perm.refl _⟩
  | succ c ih =>
    intro bl wl k hc
    have hlen : 0 < wl.length := by omega
    have hne : wl.isEmpty = false := by
      cases wl
      · simp at hlen
      · rfl
    have hidx : g k % wl.length < wl.length := Nat.mod_lt _ hlen
    have hmem : wl.getD (g k % wl.length) 0 ∈ wl := by
      rw [List.getD_eq_getElem wl 0 hidx]
      exact List.getElem_mem hidx
    have herase : (wl.erase (wl.getD (g k % wl.length) 0)).length
        = wl.length - 1 := List.length_erase_of_mem hmem
    obtain ⟨bl2, wl2, hrun, hbl, hwl, hperm⟩ :=
      ih (bl ++ [wl.getD (g k % wl.length) 0])
        (wl.erase (wl.getD (g k % wl.length) 0)) (k + 1) (by omega)
    have hb1 : (bl ++ [wl.getD (g k % wl.length) 0]).length = bl.length + 1 := by
      simp
    refine ⟨bl2, wl2, ?_, by omega, by omega, ?_⟩
    · show drawLoop g (c + 1) bl wl k = some (bl2, wl2, k + (c + 1))
      have hkc : k + 1 + c = k + (c + 1) := by omega
      rw [drawLoop, hne]
      simp only [Bool.false_eq_true, if_false]
      rw [hrun, hkc]
    · refine hperm.trans ?_
      rw [List.append_assoc]
      exact List.Perm.append_left bl (List.perm_cons_erase hmem).symm

theorem create_blacklist_spec (n i : ℕ) (g : ℕ → ℕ) (k : ℕ)
    (h1 : 1 ≤ i) (h2 : i ≤ n) :
    ∃ bl wl, create_blacklist n i g k = some ((bl, wl), k + n / 2) ∧
      bl.length = n / 2 ∧ wl.length = n - 1 - n / 2 ∧
      (bl ++ wl).Perm ((List.range' 1 n).erase i) ∧ (bl ++ wl).Nodup := by
  have hmem : i ∈ List.range' 1 n := List.mem_range'_1.2 ⟨h1, by omega⟩
  have hlen : ((List.range' 1 n).erase i).length = n - 1 := by
    rw [List.length_erase_of_mem hmem, List.length_range']
  obtain ⟨bl, wl, hrun, hbl, hwl, hperm⟩ :=
    drawLoop_spec g (n / 2) [] ((List.range' 1 n).erase i) k (by omega)
  have hperm2 : (bl ++ wl).Perm ((List.range' 1 n).erase i) := by
    simpa using hperm
  refine ⟨bl, wl, ?_, by simpa using hbl, by omega, hperm2,
    hperm2.symm.nodup ((List.nodup_range' 1 n).erase i)⟩
  unfold create_blacklist
  rw [if_pos hmem, hrun]
  rfl

theorem buildLoop_spec (n : ℕ) (r : RNG) :
    ∀ (li : List ℕ) (acc : List (ℕ × Supplier)) (k : ℕ),
    (∀ i ∈ li, 1 ≤ i ∧ i ≤ n) →
    ∃ pop k2, buildLoop n r li acc k = some (pop, k2) ∧
      pop.map Prod.fst = acc.map Prod.fst ++ li ∧
      ∀ p ∈ pop, p ∈ acc ∨ EntityOK n r p := by
  intro li
  induction li with
  | nil =>
    intro acc k _
    exact ⟨acc, k, rfl, by simp, fun p hp => Or.inl hp⟩
  | cons i rest ih =>
    intro acc k hli
    obtain ⟨h1, h2⟩ := hli i (List.mem_cons_self i rest)
    obtain ⟨bl, wl, hcb, hbl, hwl, hperm, hnd⟩ :=
      create_blacklist_spec n i r.ints k h1 h2
    obtain ⟨pop, k2, hrun, hkeys, hok⟩ :=
      ih (acc ++ [(i, ⟨i, random_weight r (k + n / 2), bl, wl⟩)])
        (k + n / 2 + 1) (fun j hj => hli j (List.mem_cons_of_mem _ hj))
    refine ⟨pop, k2, ?_, ?_, ?_⟩
    · show buildLoop n r (i :: rest) acc k = some (pop, k2)
      unfold buildLoop
      rw [hcb]
      exact hrun
    · rw [hkeys]
      simp
    · intro p hp
      rcases hok p hp with hacc | hok2
      · rcases List.mem_append.1 hacc with h | h
        · exact Or.inl h
        · right
          have hp2 : p = (i, ⟨i, random_weight r (k + n / 2), bl, wl⟩) := by
            simpa using h
          subst hp2
          exact ⟨rfl, h1, h2, ⟨k + n / 2, rfl⟩, hbl, hwl, hperm, hnd⟩
      · exact Or.inr hok2

/-- `create_suppliers` always succeeds and every generated supplier
satisfies `EntityOK`; the dictionary keys are exactly `1, …, n` in
insertion order. -/
theorem create_suppliers_spec (n : ℕ) (r : RNG) (k : ℕ) :
    ∃ pop k2, create_suppliers n r k = some (pop, k2) ∧
      pop.map Prod.fst = List.range' 1 n ∧
      ∀ p ∈ pop, EntityOK n r p := by
  obtain ⟨pop, k2, hrun, hkeys, hok⟩ :=
    buildLoop_spec n r (List.range' 1 n) [] k (fun i hi => by
      have h := List.mem_range'_1.1 hi
      omega)
  exact ⟨pop, k2, hrun, by simpa using hkeys,
    fun p hp => (hok p hp).resolve_left (by simp)⟩

theorem dictGet_eq_some (pop : List (ℕ × Supplier)) (l : ℕ) (s : Supplier)
    (h : dictGet pop l = some s) : (l, s) ∈ pop := by
  unfold dictGet at h
  cases hf : pop.find? (fun p => p.1 = l) with
  | none => rw [hf] at h; cases h
  | some e =>
    rw [hf] at h
    have he : e ∈ pop := List.mem_of_find?_eq_some hf
    have hl : e.1 = l := by simpa using List.find?_some hf
    have hs : e.2 = s := Option.some.inj h
    have : e = (l, s) := by
      cases e
      simp at hl hs
      simp [hl, hs]
    rwa [this] at he

theorem dictGet_isSome_iff (pop : List (ℕ × Supplier)) (l : ℕ) :
    (dictGet pop l).isSome ↔ ∃ q ∈ pop, q.1 = l := by
  unfold dictGet
  simp [List.find?_isSome]

theorem dictGet_of_mem (pop : List (ℕ × Supplier))
    (hnd : (pop.map Prod.fst).Nodup) (l : ℕ) (s : Supplier)
    (h : (l, s) ∈ pop) : dictGet pop l = some s := by
  induction pop with
  | nil => cases h
  | cons e rest ih =>
    rcases List.mem_cons.1 h with he | hrest
    · subst he
      unfold dictGet
      simp [List.find?]
    · have hpair : (∀ x : Supplier, (e.1, x) ∉ rest) ∧
          (List.map Prod.fst rest).Nodup := by
        simpa using hnd
      have hne : e.1 ≠ l := fun hcon => hpair.1 s (hcon ▸ hrest)
      have := ih hpair.2 hrest
      unfold dictGet at this ⊢
      simpa [List.find?, hne] using this

theorem Mul1000.add {a b : ℚ} (ha : Mul1000 a) (hb : Mul1000 b) :
    Mul1000 (a + b) := by
  obtain ⟨za, hza⟩ := ha
  obtain ⟨zb, hzb⟩ := hb
  exact ⟨za + zb, by push_cast; rw [add_mul, hza, hzb]⟩

theorem Mul1000.zero : Mul1000 0 := ⟨0, by norm_num⟩

theorem mul1000_round3 (q : ℚ) : Mul1000 (round3 q) := by
  refine ⟨round (q * 1000), ?_⟩
  unfold round3
  field_simp

theorem round3_eq_self {q : ℚ} (h : Mul1000 q) : round3 q = q := by
  obtain ⟨z, hz⟩ := h
  have hq : q = (z : ℚ) / 1000 := by
    field_simp
    linarith [hz]
  rw [hq]
  unfold round3
  rw [div_mul_cancel₀]
  · rw [round_intCast]
  · norm_num

theorem round3_abs_le (q : ℚ) : |round3 q - q| ≤ 1 / 1000 := by
  unfold round3
  have h := abs_sub_round (q * 1000)
  rw [abs_sub_comm] at h
  have h2 : (round (q * 1000) : ℚ) / 1000 - q
      = ((round (q * 1000) : ℚ) - q * 1000) / 1000 := by
    ring
  rw [h2, abs_div, abs_of_pos (show (0:ℚ) < 1000 by norm_num)]
  rw [div_le_div_iff₀ (by norm_num) (by norm_num)]
  linarith [h]

theorem compareUpdate_of_le {s : SState} (h : s.bw ≤ s.cw) :
    compareUpdate s = { s with bw := s.cw, bs := s.cs, aliased := true } := by
  unfold compareUpdate
  rw [if_pos h]

theorem compareUpdate_of_lt {s : SState} (h : s.cw < s.bw) :
    compareUpdate s = s := by
  unfold compareUpdate
  rw [if_neg (not_le.2 h)]

theorem acceptPhase_cases (pop : List (ℕ × Supplier)) (s : SState) (a : ℕ)
    (t : SState) (h : acceptPhase pop s a = some t) :
    t = s ∨ ∃ sup, dictGet pop a = some sup ∧
      t = { s with
            cw := s.cw + sup.weight
            itf := s.itf ++ sup.blacklist
            cs := s.cs ++ [a]
            bs := if s.aliased then s.bs ++ [a] else s.bs } := by
  unfold acceptPhase at h
  split at h
  · exact Or.inl (Option.some.inj h).symm
  · split at h
    · cases h
    · rename_i sup hd
      split at h
      · exact Or.inr ⟨sup, hd, (Option.some.inj h).symm⟩
      · exact Or.inl (Option.some.inj h).symm

theorem acceptPhase_isSome (pop : List (ℕ × Supplier)) (s : SState) (a : ℕ)
    (h : a ∈ s.itf ∨ (dictGet pop a).isSome) :
    ∃ t, acceptPhase pop s a = some t := by
  rw [← Option.isSome_iff_exists]
  unfold acceptPhase
  split
  · rfl
  · rename_i hmem
    have hsome : (dictGet pop a).isSome = true := h.resolve_left hmem
    split
    · rename_i hd
      rw [hd] at hsome
      simp at hsome
    · split
      · rfl
      · rfl

theorem searchStep_elim (pop : List (ℕ × Supplier)) (s : SState) (a : ℕ)
    (s' : SState) (h : searchStep pop s a = some s') :
    ∃ t, acceptPhase pop s a = some t ∧ s' = compareUpdate t := by
  unfold searchStep at h
  cases ht : acceptPhase pop s a with
  | none => rw [ht] at h; cases h
  | some t =>
    rw [ht] at h
    exact ⟨t, rfl, (Option.some.inj h).symm⟩

theorem searchStep_isSome (pop : List (ℕ × Supplier)) (s : SState) (a : ℕ)
    (h : a ∈ s.itf ∨ (dictGet pop a).isSome) :
    ∃ s', searchStep pop s a = some s' := by
  obtain ⟨t, ht⟩ := acceptPhase_isSome pop s a h
  exact ⟨compareUpdate t, by unfold searchStep; rw [ht]; rfl⟩

theorem searchStep_bw_mono (pop : List (ℕ × Supplier)) (s : SState) (a : ℕ)
    (s' : SState) (h : searchStep pop s a = some s') : s.bw ≤ s'.bw := by
  obtain ⟨t, ht, hs'⟩ := searchStep_elim pop s a s' h
  have hbw : t.bw = s.bw := by
    rcases acceptPhase_cases pop s a t ht with h1 | ⟨sup, _, h1⟩ <;> rw [h1]
  subst hs'
  unfold compareUpdate
  split
  · rename_i hle
    show s.bw ≤ t.cw
    rw [← hbw]
    exact hle
  · show s.bw ≤ t.bw
    rw [hbw]

theorem searchSeedLoop_inv (pop : List (ℕ × Supplier)) (P : SState → Prop)
    (hstep : ∀ t a t', searchStep pop t a = some t' → P t → P t') :
    ∀ (l : List ℕ) (s s' : SState),
      searchSeedLoop pop l s = some s' → P s → P s' := by
  intro l
  induction l with
  | nil =>
    intro s s' h hs
    exact (Option.some.inj h) ▸ hs
  | cons a rest ih =>
    intro s s' h hs
    cases h1 : searchStep pop s a with
    | none => rw [searchSeedLoop, h1] at h; cases h
    | some s1 =>
      rw [searchSeedLoop, h1] at h
      exact ih s1 s' h (hstep s a s1 h1 hs)

theorem searchSeedLoop_isSome (pop : List (ℕ × Supplier)) :
    ∀ (l : List ℕ) (s : SState), (∀ a ∈ l, (dictGet pop a).isSome) →
    ∃ s', searchSeedLoop pop l s = some s' := by
  intro l
  induction l with
  | nil => intro s _; exact ⟨s, rfl⟩
  | cons a rest ih =>
    intro s hl
    obtain ⟨s1, h1⟩ :=
      searchStep_isSome pop s a (Or.inr (hl a (List.mem_cons_self a rest)))
    obtain ⟨s', h2⟩ := ih s1 (fun b hb => hl b (List.mem_cons_of_mem _ hb))
    refine ⟨s', ?_⟩
    rw [searchSeedLoop, h1]
    exact h2

theorem searchSeedLoop_bw_mono (pop : List (ℕ × Supplier)) (l : List ℕ)
    (s s' : SState) (h : searchSeedLoop pop l s = some s') : s.bw ≤ s'.bw :=
  searchSeedLoop_inv pop (fun t => s.bw ≤ t.bw)
    (fun t a t' hst hp => le_trans hp (searchStep_bw_mono pop t a t' hst))
    l s s' h (le_refl _)

theorem searchStep_cw_bw_lb (pop : List (ℕ × Supplier))
    (hw : ∀ p ∈ pop, 0 ≤ p.2.weight) (w0 : ℚ) (s : SState) (a : ℕ)
    (s' : SState) (h : searchStep pop s a = some s') (hcw : w0 ≤ s.cw) :
    w0 ≤ s'.cw ∧ w0 ≤ s'.bw := by
  obtain ⟨t, ht, hs'⟩ := searchStep_elim pop s a s' h
  have htcw : w0 ≤ t.cw := by
    rcases acceptPhase_cases pop s a t ht with h1 | ⟨sup, hd, h1⟩
    · rw [h1]; exact hcw
    · have hnn := hw _ (dictGet_eq_some pop a sup hd)
      rw [h1]
      show w0 ≤ s.cw + sup.weight
      linarith
  subst hs'
  unfold compareUpdate
  split
  · exact ⟨htcw, htcw⟩
  · rename_i hnle
    exact ⟨htcw, le_of_lt (lt_of_le_of_lt htcw (not_le.1 hnle))⟩

theorem runSeed_isSome (pop : List (ℕ × Supplier)) (sup : Supplier)
    (bw : ℚ) (bs : List ℕ)
    (hl : ∀ a ∈ sup.interactions, (dictGet pop a).isSome) :
    ∃ b2, runSeed pop bw bs sup = some b2 := by
  obtain ⟨s', h⟩ := searchSeedLoop_isSome pop sup.interactions
    ⟨sup.weight, sup.blacklist, [sup.label], bw, bs, false⟩ hl
  refine ⟨(s'.bw, s'.bs), ?_⟩
  unfold runSeed
  rw [h]
  rfl

theorem runSeed_bw_mono (pop : List (ℕ × Supplier)) (sup : Supplier)
    (bw : ℚ) (bs : List ℕ) (b2 : ℚ × List ℕ)
    (h : runSeed pop bw bs sup = some b2) : bw ≤ b2.1 := by
  unfold runSeed at h
  cases hloop : searchSeedLoop pop sup.interactions
      ⟨sup.weight, sup.blacklist, [sup.label], bw, bs, false⟩ with
  | none => rw [hloop] at h; cases h
  | some s' =>
    rw [hloop] at h
    have := searchSeedLoop_bw_mono pop sup.interactions _ s' hloop
    have hb : b2 = (s'.bw, s'.bs) := (Option.some.inj h).symm
    rw [hb]
    exact this

theorem runSeed_lb (pop : List (ℕ × Supplier))
    (hw : ∀ p ∈ pop, 0 ≤ p.2.weight) (sup : Supplier)
    (hl : ∀ a ∈ sup.interactions, (dictGet pop a).isSome)
    (hne : sup.interactions ≠ []) (bw : ℚ) (bs : List ℕ) :
    ∃ b2, runSeed pop bw bs sup = some b2 ∧ bw ≤ b2.1 ∧ sup.weight ≤ b2.1 := by
  cases hint : sup.interactions with
  | nil => exact absurd hint hne
  | cons a rest =>
    obtain ⟨s1, h1⟩ := searchStep_isSome pop
      ⟨sup.weight, sup.blacklist, [sup.label], bw, bs, false⟩ a
      (Or.inr (hl a (hint ▸ List.mem_cons_self a rest)))
    obtain ⟨hcw1, hbw1⟩ := searchStep_cw_bw_lb pop hw sup.weight
      ⟨sup.weight, sup.blacklist, [sup.label], bw, bs, false⟩ a s1 h1 (le_refl _)
    obtain ⟨s2, h2⟩ := searchSeedLoop_isSome pop rest s1
      (fun b hb => hl b (hint ▸ List.mem_cons_of_mem _ hb))
    have hmono2 : s1.bw ≤ s2.bw := searchSeedLoop_bw_mono pop rest s1 s2 h2
    have hloop : searchSeedLoop pop (a :: rest)
        ⟨sup.weight, sup.blacklist, [sup.label], bw, bs, false⟩ = some s2 := by
      rw [searchSeedLoop, h1]
      exact h2
    have hmono1 : bw ≤ s1.bw := searchStep_bw_mono pop
      ⟨sup.weight, sup.blacklist, [sup.label], bw, bs, false⟩ a s1 h1
    refine ⟨(s2.bw, s2.bs), ?_, le_trans hmono1 hmono2, le_trans hbw1 hmono2⟩
    unfold runSeed
    rw [hint, hloop]
    rfl

theorem searchLoop_inv (pop : List (ℕ × Supplier)) (Q : ℚ × List ℕ → Prop)
    (hseed : ∀ b p b2, p ∈ pop → runSeed pop b.1 b.2 p.2 = some b2 →
      Q b → Q b2) :
    ∀ (l : List (ℕ × Supplier)) (b b2 : ℚ × List ℕ), (∀ p ∈ l, p ∈ pop) →
      searchLoop pop l b = some b2 → Q b → Q b2 := by
  intro l
  induction l with
  | nil =>
    intro b b2 _ h hb
    exact (Option.some.inj h) ▸ hb
  | cons p rest ih =>
    intro b b2 hl h hb
    cases h1 : runSeed pop b.1 b.2 p.2 with
    | none => rw [searchLoop, h1] at h; cases h
    | some b1 =>
      rw [searchLoop, h1] at h
      exact ih b1 b2 (fun q hq => hl q (List.mem_cons_of_mem _ hq)) h
        (hseed b p b1 (hl p (List.mem_cons_self p rest)) h1 hb)

theorem searchLoop_isSome (pop : List (ℕ × Supplier)) :
    ∀ (l : List (ℕ × Supplier)) (b : ℚ × List ℕ),
    (∀ p ∈ l, ∀ a ∈ p.2.interactions, (dictGet pop a).isSome) →
    ∃ b2, searchLoop pop l b = some b2 := by
  intro l
  induction l with
  | nil => intro b _; exact ⟨b, rfl⟩
  | cons p rest ih =>
    intro b hl
    obtain ⟨b1, h1⟩ := runSeed_isSome pop p.2 b.1 b.2
      (hl p (List.mem_cons_self p rest))
    obtain ⟨b2, h2⟩ := ih b1 (fun q hq => hl q (List.mem_cons_of_mem _ hq))
    refine ⟨b2, ?_⟩
    rw [searchLoop, h1]
    exact h2

theorem searchLoop_lb (pop : List (ℕ × Supplier))
    (hw : ∀ p ∈ pop, 0 ≤ p.2.weight) :
    ∀ (l : List (ℕ × Supplier)) (b : ℚ × List ℕ),
    (∀ p ∈ l, (∀ a ∈ p.2.interactions, (dictGet pop a).isSome) ∧
      p.2.interactions ≠ []) →
    ∃ b2, searchLoop pop l b = some b2 ∧ b.1 ≤ b2.1 ∧
      ∀ p ∈ l, p.2.weight ≤ b2.1 := by
  intro l
  induction l with
  | nil =>
    intro b _
    exact ⟨b, rfl, le_refl _, by simp⟩
  | cons p rest ih =>
    intro b hl
    obtain ⟨hlk, hne⟩ := hl p (List.mem_cons_self p rest)
    obtain ⟨b1, hrun, hble, hwle⟩ := runSeed_lb pop hw p.2 hlk hne b.1 b.2
    obtain ⟨b2, hloop, hble2, hall⟩ :=
      ih b1 (fun q hq => hl q (List.mem_cons_of_mem _ hq))
    refine ⟨b2, ?_, le_trans hble hble2, ?_⟩
    · rw [searchLoop, hrun]
      exact hloop
    · intro q hq
      rcases List.mem_cons.1 hq with hq1 | hq2
      · rw [hq1]
        exact le_trans hwle hble2
      · exact hall q hq2

/-- The invariant tying the running state of `ExhaustiveSearch` to the
population: the current weight is the sum of the current set's weights,
the best weight is the sum of the best set's weights, and whenever
`best_set` aliases `current_set` the two lists are equal and the best
weight is at most the current weight. -/
def Inv7 (pop : List (ℕ × Supplier)) (s : SState) : Prop :=
  s.cw = sumWeights pop s.cs ∧ s.bw = sumWeights pop s.bs ∧
  (s.aliased = true → s.bs = s.cs ∧ s.bw ≤ s.cw)

theorem sumWeights_append (pop : List (ℕ × Supplier)) (ls : List ℕ) (a : ℕ) :
    sumWeights pop (ls ++ [a]) = sumWeights pop ls + weightOf pop a := by
  unfold sumWeights
  simp

theorem weightOf_eq (pop : List (ℕ × Supplier)) (a : ℕ) (sup : Supplier)
    (hd : dictGet pop a = some sup) : weightOf pop a = sup.weight := by
  unfold weightOf
  rw [hd]
  rfl

theorem searchStep_inv7 (pop : List (ℕ × Supplier))
    (hw : ∀ p ∈ pop, 0 ≤ p.2.weight) :
    ∀ (s : SState) (a : ℕ) (s' : SState), searchStep pop s a = some s' →
      Inv7 pop s → Inv7 pop s' := by
  intro s a s' h hs
  obtain ⟨hcw, hbw, hal⟩ := hs
  obtain ⟨t, ht, hs'⟩ := searchStep_elim pop s a s' h
  subst hs'
  rcases acceptPhase_cases pop s a t ht with h1 | ⟨sup, hd, h1⟩
  · subst h1
    unfold compareUpdate
    split
    · exact ⟨hcw, hcw, fun _ => ⟨rfl, le_refl _⟩⟩
    · exact ⟨hcw, hbw, hal⟩
  · have hnn : 0 ≤ sup.weight := hw _ (dictGet_eq_some pop a sup hd)
    have hwa : weightOf pop a = sup.weight := weightOf_eq pop a sup hd
    have htcw : t.cw = sumWeights pop t.cs := by
      rw [h1]
      show s.cw + sup.weight = sumWeights pop (s.cs ++ [a])
      rw [sumWeights_append, hcw, hwa]
    by_cases hali : s.aliased = true
    · obtain ⟨hbs, hble⟩ := hal hali
      have hle : t.bw ≤ t.cw := by
        rw [h1]
        show s.bw ≤ s.cw + sup.weight
        linarith
      rw [compareUpdate_of_le hle]
      refine ⟨htcw, htcw, fun _ => ⟨rfl, le_refl _⟩⟩
    · have hbs : t.bs = s.bs := by
        rw [h1]
        show (if s.aliased then s.bs ++ [a] else s.bs) = s.bs
        have : s.aliased = false := by
          cases hsa : s.aliased
          · rfl
          · exact absurd hsa hali
        rw [this]
        simp
      have htbw : t.bw = sumWeights pop t.bs := by
        rw [hbs, h1]
        exact hbw
      by_cases hcmp : t.bw ≤ t.cw
      · rw [compareUpdate_of_le hcmp]
        exact ⟨htcw, htcw, fun _ => ⟨rfl, le_refl _⟩⟩
      · rw [compareUpdate_of_lt (not_le.1 hcmp)]
        refine ⟨htcw, htbw, fun hcon => ?_⟩
        have : t.aliased = s.aliased := by rw [h1]
        rw [this] at hcon
        exact absurd hcon hali

theorem runSeed_inv7 (pop : List (ℕ × Supplier))
    (hnd : (pop.map Prod.fst).Nodup) (hw : ∀ p ∈ pop, 0 ≤ p.2.weight)
    (l : ℕ) (sup : Supplier) (hmem : (l, sup) ∈ pop) (hlab : sup.label = l)
    (bw : ℚ) (bs : List ℕ) (hb : bw = sumWeights pop bs)
    (b2 : ℚ × List ℕ) (hrun : runSeed pop bw bs sup = some b2) :
    b2.1 = sumWeights pop b2.2 := by
  unfold runSeed at hrun
  cases hloop : searchSeedLoop pop sup.interactions
      ⟨sup.weight, sup.blacklist, [sup.label], bw, bs, false⟩ with
  | none => rw [hloop] at hrun; cases hrun
  | some s' =>
    rw [hloop] at hrun
    have hinit : Inv7 pop ⟨sup.weight, sup.blacklist, [sup.label], bw, bs, false⟩ := by
      refine ⟨?_, hb, by simp⟩
      show sup.weight = sumWeights pop [sup.label]
      have hg : dictGet pop sup.label = some sup := by
        rw [hlab]
        exact dictGet_of_mem pop hnd l sup hmem
      simp [sumWeights, weightOf_eq pop sup.label sup hg]
    have hfin : Inv7 pop s' := searchSeedLoop_inv pop (Inv7 pop)
      (searchStep_inv7 pop hw) sup.interactions _ s' hloop hinit
    have hb2 : b2 = (s'.bw, s'.bs) := (Option.some.inj hrun).symm
    rw [hb2]
    exact hfin.2.1

theorem searchStep_mul (pop : List (ℕ × Supplier))
    (hm : ∀ p ∈ pop, Mul1000 p.2.weight) :
    ∀ (s : SState) (a : ℕ) (s' : SState), searchStep pop s a = some s' →
      (Mul1000 s.cw ∧ Mul1000 s.bw) → Mul1000 s'.cw ∧ Mul1000 s'.bw := by
  intro s a s' h hs
  obtain ⟨t, ht, hs'⟩ := searchStep_elim pop s a s' h
  have htt : Mul1000 t.cw ∧ Mul1000 t.bw := by
    rcases acceptPhase_cases pop s a t ht with h1 | ⟨sup, hd, h1⟩
    · rw [h1]; exact hs
    · have hws := hm _ (dictGet_eq_some pop a sup hd)
      rw [h1]
      exact ⟨hs.1.add hws, hs.2⟩
  subst hs'
  unfold compareUpdate
  split
  · exact ⟨htt.1, htt.1⟩
  · exact htt

theorem runSeed_mul (pop : List (ℕ × Supplier))
    (hm : ∀ p ∈ pop, Mul1000 p.2.weight) (sup : Supplier)
    (hsup : Mul1000 sup.weight) (bw : ℚ) (bs : List ℕ) (b2 : ℚ × List ℕ)
    (hb : Mul1000 bw) (hrun : runSeed pop bw bs sup = some b2) :
    Mul1000 b2.1 := by
  unfold runSeed at hrun
  cases hloop : searchSeedLoop pop sup.interactions
      ⟨sup.weight, sup.blacklist, [sup.label], bw, bs, false⟩ with
  | none => rw [hloop] at hrun; cases hrun
  | some s' =>
    rw [hloop] at hrun
    have hfin := searchSeedLoop_inv pop
      (fun u => Mul1000 u.cw ∧ Mul1000 u.bw) (searchStep_mul pop hm)
      sup.interactions _ s' hloop ⟨hsup, hb⟩
    have hb2 : b2 = (s'.bw, s'.bs) := (Option.some.inj hrun).symm
    rw [hb2]
    exact hfin.2

/-- Membership facts extracted from `EntityOK`: every label in the
blacklist or the whitelist of a generated supplier is another label of
`1..n`. -/
theorem entityOK_mem (n : ℕ) (r : RNG) (p : ℕ × Supplier)
    (h : EntityOK n r p) (a : ℕ)
    (ha : a ∈ p.2.blacklist ∨ a ∈ p.2.interactions) :
    a ∈ List.range' 1 n ∧ a ≠ p.1 := by
  obtain ⟨_, _, _, _, _, _, hperm, _⟩ := h
  have hmem : a ∈ p.2.blacklist ++ p.2.interactions := by
    rcases ha with ha | ha
    · exact List.mem_append_left _ ha
    · exact List.mem_append_right _ ha
  have he : a ∈ (List.range' 1 n).erase p.1 := hperm.mem_iff.1 hmem
  have := (List.nodup_range' 1 n).mem_erase_iff.1 he
  exact ⟨this.2, this.1⟩

theorem generated_keys_isSome (n : ℕ) (pop : List (ℕ × Supplier))
    (hkeys : pop.map Prod.fst = List.range' 1 n) (a : ℕ)
    (ha : a ∈ List.range' 1 n) : (dictGet pop a).isSome := by
  rw [dictGet_isSome_iff]
  rw [← hkeys] at ha
  obtain ⟨q, hq, hq2⟩ := List.mem_map.1 ha
  exact ⟨q, hq, hq2⟩

/-- The population generated by `create_suppliers 4 rng0 0` (index stream
constantly `0`, float stream constantly `1/2`). -/
def popGen4 : List (ℕ × Supplier) :=
  [(1, ⟨1, round3 (1/2), [2, 3], [4]⟩), (2, ⟨2, round3 (1/2), [1, 3], [4]⟩),
   (3, ⟨3, round3 (1/2), [1, 2], [4]⟩), (4, ⟨4, round3 (1/2), [1, 2], [3]⟩)]

/-- Claim C1: on the fixed four-supplier population of the worked
scenario, `ExhaustiveSearch` returns exactly `(1.1, [2, 3])`. -/
theorem C1_worked_scenario : ExhaustiveSearch pop4 = some (11/10, [2, 3]) := by
  norm_num [ExhaustiveSearch, searchLoop, runSeed, searchSeedLoop, searchStep,
    acceptPhase, compareUpdate, dictGet, pop4, round3, List.find?]

/-- Claim C10: for `1 ≤ i ≤ n`, `create_blacklist n i` terminates
normally: the draw loop performs exactly `⌊n/2⌋` draws (the cursor
advances by exactly `⌊n/2⌋`), never choosing from an empty pool, and the
blacklist has exactly `⌊n/2⌋` entries while `n - 1 - ⌊n/2⌋` labels remain
in the pool. -/
theorem C10_termination (n i : ℕ) (g : ℕ → ℕ) (k : ℕ)
    (h1 : 1 ≤ i) (h2 : i ≤ n) :
    ∃ bl wl, create_blacklist n i g k = some ((bl, wl), k + n / 2) ∧
      bl.length = n / 2 ∧ wl.length = n - 1 - n / 2 := by
  obtain ⟨bl, wl, hrun, hbl, hwl, _, _⟩ := create_blacklist_spec n i g k h1 h2
  exact ⟨bl, wl, hrun, hbl, hwl⟩

/-- Witness for C10 at the concrete input `n = 5`, `i = 2`, index stream
constantly `0`, cursor `0`. -/
theorem C10_witness :
    (1 ≤ 2 ∧ 2 ≤ 5) ∧
    ∃ bl wl, create_blacklist 5 2 rng0.ints 0 = some ((bl, wl), 0 + 5 / 2) ∧
      bl.length = 5 / 2 ∧ wl.length = 5 - 1 - 5 / 2 :=
  ⟨by norm_num, C10_termination 5 2 rng0.ints 0 (by norm_num) (by norm_num)⟩

/-- Claim C6 (corrected): for `n = 0` (and any non-positive count, since
Python's `range(n)` is then empty) `create_suppliers` does not fail: it
returns the empty population unchanged, with no `InvalidArgument` error. -/
theorem C6_empty_population (r : RNG) (k : ℕ) :
    create_suppliers 0 r k = some ([], k) := rfl

/-- Counterexample to C6 as stated: at the concrete input `n = 0` the
generator succeeds (returns `some`, the empty dictionary) instead of
failing. -/
theorem C6_counterexample :
    create_suppliers 0 rng0 0 = some ([], 0) ∧
    create_suppliers 0 rng0 0 ≠ none := by
  refine ⟨rfl, ?_⟩
  intro h
  rw [show create_suppliers 0 rng0 0 = some ([], 0) from rfl] at h
  cases h

/-- Claim C3 (amended): for `n = 1` the generator succeeds and yields the
sole supplier with empty blacklist and empty whitelist — but the search
then returns `(0, [])`, not `(weight 1, [1])`: the best-update runs only
inside the candidate loop, and the sole supplier's candidate list is
empty. -/
theorem C3_n_eq_1 (r : RNG) (k : ℕ) :
    create_suppliers 1 r k
      = some ([(1, ⟨1, round3 (r.floats k), [], []⟩)], k + 1) ∧
    ExhaustiveSearch [(1, ⟨1, round3 (r.floats k), [], []⟩)] = some (0, []) := by
  refine ⟨rfl, ?_⟩
  norm_num [ExhaustiveSearch, searchLoop, runSeed, searchSeedLoop, round3]

/-- Counterexample to C3 as stated: with float stream constantly `1/2`
the sole supplier has weight `0.5`, yet the search returns `(0, [])`,
which differs from the claimed `(weight 1, [1]) = (0.5, [1])`. -/
theorem C3_counterexample :
    create_suppliers 1 rng0 0 = some ([(1, ⟨1, 1/2, [], []⟩)], 1) ∧
    ExhaustiveSearch [(1, ⟨1, (1:ℚ)/2, [], []⟩)] = some (0, []) ∧
    ((0 : ℚ), ([] : List ℕ)) ≠ (1/2, [1]) := by
  have hr : round3 ((1:ℚ)/2) = 1/2 := by norm_num [round3, round_eq]
  refine ⟨?_, ?_, ?_⟩
  · have h : create_suppliers 1 rng0 0
        = some ([(1, ⟨1, round3 (1/2), [], []⟩)], 1) := rfl
    rwa [hr] at h
  · norm_num [ExhaustiveSearch, searchLoop, runSeed, searchSeedLoop, round3]
  · intro h
    have := congrArg Prod.fst h
    norm_num at this

/-- Claim C4: every entity produced by `create_suppliers` (for any
`n ≥ 1`) has disjoint blacklist and whitelist, neither containing its own
label, their union is exactly the other labels of `1..n`, and the
blacklist has exactly `⌊n/2⌋` entries. -/
theorem C4_partition_size (n : ℕ) (r : RNG) (k : ℕ)
    (pop : List (ℕ × Supplier)) (k2 : ℕ) (hn : 1 ≤ n)
    (hgen : create_suppliers n r k = some (pop, k2)) :
    ∀ p ∈ pop,
      (∀ a ∈ p.2.blacklist, a ∉ p.2.interactions) ∧
      p.2.label ∉ p.2.blacklist ∧ p.2.label ∉ p.2.interactions ∧
      (∀ a, (a ∈ p.2.blacklist ∨ a ∈ p.2.interactions) ↔
        (1 ≤ a ∧ a ≤ n ∧ a ≠ p.2.label)) ∧
      p.2.blacklist.length = n / 2 := by
  obtain ⟨pop2, k3, hgen2, hkeys, hok⟩ := create_suppliers_spec n r k
  rw [hgen] at hgen2
  have hpp : pop = pop2 := congrArg Prod.fst (Option.some.inj hgen2)
  rw [← hpp] at hok
  intro p hp
  have he := hok p hp
  obtain ⟨hlab, hp1, hpn, hwt, hblen, hwlen, hperm, hnd⟩ := hok p hp
  refine ⟨?_, ?_, ?_, ?_, hblen⟩
  · intro a ha hb
    exact (List.nodup_append.1 hnd).2.2 ha hb
  · intro hcon
    exact (entityOK_mem n r p he p.2.label (Or.inl hcon)).2 hlab
  · intro hcon
    exact (entityOK_mem n r p he p.2.label (Or.inr hcon)).2 hlab
  · intro a
    constructor
    · intro ha
      obtain ⟨hr, hne⟩ := entityOK_mem n r p he a ha
      have hm := List.mem_range'_1.1 hr
      refine ⟨hm.1, by omega, ?_⟩
      rw [hlab]
      exact hne
    · rintro ⟨h1a, h2a, h3a⟩
      have hr : a ∈ List.range' 1 n := List.mem_range'_1.2 ⟨h1a, by omega⟩
      have he2 : a ∈ (List.range' 1 n).erase p.1 :=
        (List.nodup_range' 1 n).mem_erase_iff.2
          ⟨by rw [← hlab]; exact h3a, hr⟩
      exact List.mem_append.1 (hperm.mem_iff.2 he2)

/-- Witness for C4 at `n = 4` with the concrete randomness source
`rng0`. -/
theorem C4_witness :
    1 ≤ 4 ∧
    create_suppliers 4 rng0 0 = some (popGen4, 12) ∧
    ∀ p ∈ popGen4,
      (∀ a ∈ p.2.blacklist, a ∉ p.2.interactions) ∧
      p.2.label ∉ p.2.blacklist ∧ p.2.label ∉ p.2.interactions ∧
      (∀ a, (a ∈ p.2.blacklist ∨ a ∈ p.2.interactions) ↔
        (1 ≤ a ∧ a ≤ 4 ∧ a ≠ p.2.label)) ∧
      p.2.blacklist.length = 4 / 2 :=
  ⟨by norm_num, rfl, C4_partition_size 4 rng0 0 popGen4 12 (by norm_num) rfl⟩

theorem round3_nonneg {q : ℚ} (h : 0 ≤ q) : 0 ≤ round3 q := by
  unfold round3
  apply div_nonneg _ (by norm_num)
  have hr : 0 ≤ round (q * 1000) := by
    rw [round_eq]
    exact Int.floor_nonneg.2 (by linarith)
  exact_mod_cast hr

/-- The population generated by `create_suppliers 3 rng0 0`. -/
def popGen3 : List (ℕ × Supplier) :=
  [(1, ⟨1, round3 (1/2), [2], [3]⟩), (2, ⟨2, round3 (1/2), [1], [3]⟩),
   (3, ⟨3, round3 (1/2), [1], [2]⟩)]

/-- Claim C2 (amended): for every population generated with `n ≥ 3`, the
search succeeds and its best weight is at least every single supplier's
weight.  (For `n = 1` and `n = 2` every compatibility list is empty, the
best-update never runs, and the search returns `(0, [])`.) -/
theorem C2_lower_bound (n : ℕ) (r : RNG) (k : ℕ)
    (pop : List (ℕ × Supplier)) (k2 : ℕ) (hn : 3 ≤ n)
    (hf : ∀ m, 0 ≤ r.floats m)
    (hgen : create_suppliers n r k = some (pop, k2)) :
    ∃ bw bs, ExhaustiveSearch pop = some (bw, bs) ∧
      ∀ p ∈ pop, p.2.weight ≤ bw := by
  obtain ⟨pop2, k3, hgen2, hkeys, hok⟩ := create_suppliers_spec n r k
  rw [hgen] at hgen2
  have hpp : pop = pop2 := congrArg Prod.fst (Option.some.inj hgen2)
  rw [← hpp] at hok hkeys
  have hw : ∀ p ∈ pop, 0 ≤ p.2.weight := by
    intro p hp
    obtain ⟨_, _, _, ⟨m, hm⟩, _⟩ := hok p hp
    rw [hm]
    exact round3_nonneg (hf m)
  have hm : ∀ p ∈ pop, Mul1000 p.2.weight := by
    intro p hp
    obtain ⟨_, _, _, ⟨m, hmw⟩, _⟩ := hok p hp
    rw [hmw]
    exact mul1000_round3 _
  have hlkne : ∀ p ∈ pop, (∀ a ∈ p.2.interactions, (dictGet pop a).isSome) ∧
      p.2.interactions ≠ [] := by
    intro p hp
    constructor
    · intro a ha
      exact generated_keys_isSome n pop hkeys a
        (entityOK_mem n r p (hok p hp) a (Or.inr ha)).1
    · obtain ⟨_, _, _, _, _, hwlen, _, _⟩ := hok p hp
      have : 0 < p.2.interactions.length := by omega
      exact List.length_pos.1 this
  obtain ⟨b2, hloop, _, hall⟩ := searchLoop_lb pop hw pop (0, []) hlkne
  have hmul : Mul1000 b2.1 := by
    refine searchLoop_inv pop (fun b => Mul1000 b.1) ?_ pop (0, []) b2
      (fun p hp => hp) hloop Mul1000.zero
    intro b p bb hp hrun hqb
    exact runSeed_mul pop hm p.2 (hm p hp) b.1 b.2 bb hqb hrun
  have hres : ExhaustiveSearch pop = some (round3 b2.1, b2.2) := by
    unfold ExhaustiveSearch
    rw [hloop]
    rfl
  rw [round3_eq_self hmul] at hres
  exact ⟨b2.1, b2.2, hres, fun p hp => hall p hp⟩

/-- Counterexample to C2 as stated: for `n = 1` (and likewise `n = 2`)
the generated compatibility lists are all empty, so the search returns
`(0, [])` and its best weight `0` is below the maximum supplier weight
`0.5`. -/
theorem C2_counterexample :
    (create_suppliers 1 rng0 0 = some ([(1, ⟨1, 1/2, [], []⟩)], 1) ∧
      ExhaustiveSearch [(1, ⟨1, (1:ℚ)/2, [], []⟩)] = some (0, []) ∧
      ¬ ((1:ℚ)/2 ≤ 0)) ∧
    (create_suppliers 2 rng0 0
        = some ([(1, ⟨1, 1/2, [2], []⟩), (2, ⟨2, 1/2, [1], []⟩)], 4) ∧
      ExhaustiveSearch [(1, ⟨1, (1:ℚ)/2, [2], []⟩), (2, ⟨2, (1:ℚ)/2, [1], []⟩)]
        = some (0, []) ∧
      ¬ ((1:ℚ)/2 ≤ 0)) := by
  have hr : round3 ((1:ℚ)/2) = 1/2 := by norm_num [round3, round_eq]
  refine ⟨⟨?_, ?_, by norm_num⟩, ⟨?_, ?_, by norm_num⟩⟩
  · have h : create_suppliers 1 rng0 0
        = some ([(1, ⟨1, round3 (1/2), [], []⟩)], 1) := rfl
    rwa [hr] at h
  · norm_num [ExhaustiveSearch, searchLoop, runSeed, searchSeedLoop, round3]
  · have h : create_suppliers 2 rng0 0
        = some ([(1, ⟨1, round3 (1/2), [2], []⟩),
                 (2, ⟨2, round3 (1/2), [1], []⟩)], 4) := rfl
    rwa [hr] at h
  · norm_num [ExhaustiveSearch, searchLoop, runSeed, searchSeedLoop, round3]

/-- Witness for C2 (amended) at `n = 3` with the concrete source `rng0`. -/
theorem C2_witness :
    3 ≤ 3 ∧ (∀ m : ℕ, 0 ≤ rng0.floats m) ∧
    create_suppliers 3 rng0 0 = some (popGen3, 6) ∧
    ∃ bw bs, ExhaustiveSearch popGen3 = some (bw, bs) ∧
      ∀ p ∈ popGen3, p.2.weight ≤ bw :=
  ⟨by norm_num, fun m => by norm_num [rng0],
    rfl, C2_lower_bound 3 rng0 0 popGen3 6 (by norm_num)
      (fun m => by norm_num [rng0]) rfl⟩

/-- Two suppliers of equal weight, each compatible with the other: both
seed passes reach total weight `1`, and the non-strict comparison lets
the later seed's set `[2, 1]` overwrite the earlier `[1, 2]`. -/
def popTie : List (ℕ × Supplier) :=
  [(1, ⟨1, 1/2, [], [2]⟩), (2, ⟨2, 1/2, [], [1]⟩)]

/-- Claim C5: after every candidate — accepted or not — the algorithm
compares with a non-strict `≥` (here `bw ≤ cw`) and on success installs
the current weight and current set as the new best; a later equal-weight
state therefore overwrites an earlier one, as the `popTie` run shows
(`[2, 1]` wins over the equally heavy `[1, 2]`). -/
theorem C5_tie_break :
    (∀ (pop : List (ℕ × Supplier)) (s : SState) (a : ℕ) (t : SState),
      acceptPhase pop s a = some t →
      searchStep pop s a = some (compareUpdate t)) ∧
    (∀ t : SState, t.bw ≤ t.cw →
      (compareUpdate t).bw = t.cw ∧ (compareUpdate t).bs = t.cs) ∧
    (∀ t : SState, t.cw < t.bw → compareUpdate t = t) ∧
    ExhaustiveSearch popTie = some (1, [2, 1]) := by
  refine ⟨?_, ?_, ?_, ?_⟩
  · intro pop s a t ht
    unfold searchStep
    rw [ht]
    rfl
  · intro t h
    rw [compareUpdate_of_le h]
    exact ⟨rfl, rfl⟩
  · intro t h
    exact compareUpdate_of_lt h
  · norm_num [ExhaustiveSearch, searchLoop, runSeed, searchSeedLoop,
      searchStep, acceptPhase, compareUpdate, dictGet, popTie, round3,
      List.find?, round_eq]

/-- Witness for C5: a concrete accepted candidate (seed 1 of `popTie`
accepting supplier 2), on which the comparison then installs the new
best. -/
theorem C5_witness :
    acceptPhase popTie ⟨1/2, [], [1], 0, [], false⟩ 2
      = some ⟨1, [], [1, 2], 0, [], false⟩ ∧
    searchStep popTie ⟨1/2, [], [1], 0, [], false⟩ 2
      = some (compareUpdate ⟨1, [], [1, 2], 0, [], false⟩) ∧
    ((⟨1, [], [1, 2], 0, [], false⟩ : SState).bw
      ≤ (⟨1, [], [1, 2], 0, [], false⟩ : SState).cw) ∧
    (compareUpdate ⟨1, [], [1, 2], 0, [], false⟩).bw = 1 ∧
    (compareUpdate ⟨1, [], [1, 2], 0, [], false⟩).bs = [1, 2] := by
  have hacc : acceptPhase popTie ⟨1/2, [], [1], 0, [], false⟩ 2
      = some ⟨1, [], [1, 2], 0, [], false⟩ := by
    norm_num [acceptPhase, dictGet, popTie, List.find?]
  have h2 := C5_tie_break.2.1 ⟨1, [], [1, 2], 0, [], false⟩ (by norm_num)
  exact ⟨hacc, C5_tie_break.1 popTie _ 2 _ hacc, by norm_num, h2.1, h2.2⟩

/-- Claim C7: for any population with distinct keys, labels matching the
keys, and non-negative weights, the returned best weight is the rounded
sum of the weights of the returned best set — within `1/1000` of the
exact sum, and exactly its 3-decimal rounding. -/
theorem C7_sum_consistency (pop : List (ℕ × Supplier)) (bw : ℚ)
    (bs : List ℕ) (hnd : (pop.map Prod.fst).Nodup)
    (hlab : ∀ p ∈ pop, p.2.label = p.1)
    (hw : ∀ p ∈ pop, 0 ≤ p.2.weight)
    (hres : ExhaustiveSearch pop = some (bw, bs)) :
    bw = round3 (sumWeights pop bs) ∧
    |bw - sumWeights pop bs| ≤ 1 / 1000 := by
  unfold ExhaustiveSearch at hres
  cases hloop : searchLoop pop pop (0, []) with
  | none => rw [hloop] at hres; cases hres
  | some b2 =>
    rw [hloop] at hres
    have hinj := Option.some.inj hres
    have hb1 : round3 b2.1 = bw := congrArg Prod.fst hinj
    have hb2 : b2.2 = bs := congrArg Prod.snd hinj
    have hq : b2.1 = sumWeights pop b2.2 := by
      refine searchLoop_inv pop (fun b => b.1 = sumWeights pop b.2) ?_ pop
        (0, []) b2 (fun p hp => hp) hloop (by simp [sumWeights])
      intro b p bb hp hrun hqb
      exact runSeed_inv7 pop hnd hw p.1 p.2 hp (hlab p hp) b.1 b.2 hqb bb hrun
    rw [← hb1, ← hb2, ← hq]
    exact ⟨rfl, round3_abs_le b2.1⟩

/-- Witness for C7 on the worked-scenario population `pop4`. -/
theorem C7_witness :
    (pop4.map Prod.fst).Nodup ∧ (∀ p ∈ pop4, p.2.label = p.1) ∧
    (∀ p ∈ pop4, 0 ≤ p.2.weight) ∧
    ExhaustiveSearch pop4 = some (11/10, [2, 3]) ∧
    (11/10 : ℚ) = round3 (sumWeights pop4 [2, 3]) ∧
    |(11/10 : ℚ) - sumWeights pop4 [2, 3]| ≤ 1 / 1000 := by
  have h1 : (pop4.map Prod.fst).Nodup := by norm_num [pop4]
  have h2 : ∀ p ∈ pop4, p.2.label = p.1 := by norm_num [pop4]
  have h3 : ∀ p ∈ pop4, 0 ≤ p.2.weight := by norm_num [pop4]
  have h4 : ExhaustiveSearch pop4 = some (11/10, [2, 3]) := by
    norm_num [ExhaustiveSearch, searchLoop, runSeed, searchSeedLoop,
      searchStep, acceptPhase, compareUpdate, dictGet, pop4, round3,
      List.find?]
  have h5 := C7_sum_consistency pop4 (11/10) [2, 3] h1 h2 h3 h4
  exact ⟨h1, h2, h3, h4, h5.1, h5.2⟩

/-- Claim C8 (amended, first half): a well-formed population — every
label mentioned anywhere resolves to a key — makes every `Dict[affine]`
lookup succeed, so the search cannot fail. -/
theorem C8_wellformed_no_failure (pop : List (ℕ × Supplier))
    (h : WellFormed pop) : (ExhaustiveSearch pop).isSome = true := by
  obtain ⟨b2, hloop⟩ := searchLoop_isSome pop pop (0, [])
    (fun p hp a ha => (dictGet_isSome_iff pop a).2 ((h p hp).1 a ha))
  unfold ExhaustiveSearch
  rw [hloop]
  rfl

/-- A malformed population: supplier 1's blacklist mentions the unknown
label 5. -/
def popBad : List (ℕ × Supplier) := [(1, ⟨1, 1/2, [5], []⟩)]

/-- Counterexample to C8's second half: `popBad` references an unknown
label, yet the search succeeds (the dangling label sits in a blacklist
and is never looked up), returning `(0, [])` instead of failing. -/
theorem C8_counterexample :
    ¬ WellFormed popBad ∧ ExhaustiveSearch popBad = some (0, []) := by
  constructor
  · intro h
    obtain ⟨q, hq, hq5⟩ :=
      (h (1, ⟨1, 1/2, [5], []⟩) (by simp [popBad])).2 5 (by simp)
    simp [popBad] at hq
    rw [hq] at hq5
    simp at hq5
  · norm_num [ExhaustiveSearch, searchLoop, runSeed, searchSeedLoop,
      popBad, round3]

/-- Witness for C8 on the well-formed population `pop4`. -/
theorem C8_witness :
    WellFormed pop4 ∧ (ExhaustiveSearch pop4).isSome = true := by
  have h : WellFormed pop4 := by
    intro p hp
    constructor <;> intro a ha <;> fin_cases hp <;> simp_all [pop4] <;> omega
  exact ⟨h, C8_wellformed_no_failure pop4 h⟩

/-- Claim C9: `generate` and `generate`-then-`search` are deterministic:
two runs from the same randomness-source state (pointwise equal streams,
same cursor) produce identical populations and identical results. -/
theorem C9_determinism (n : ℕ) (k : ℕ) (r1 r2 : RNG)
    (hf : ∀ m, r1.floats m = r2.floats m)
    (hi : ∀ m, r1.ints m = r2.ints m) :
    create_suppliers n r1 k = create_suppliers n r2 k ∧
    generateAndSearch n r1 k = generateAndSearch n r2 k := by
  have heq : r1 = r2 := by
    cases r1 with
    | mk f1 i1 =>
      cases r2 with
      | mk f2 i2 =>
        have h1 : f1 = f2 := funext fun m => hf m
        have h2 : i1 = i2 := funext fun m => hi m
        rw [h1, h2]
  rw [heq]
  exact ⟨rfl, rfl⟩

/-- Witness for C9 at `n = 2` with the concrete source `rng0` used
twice. -/
theorem C9_witness :
    (∀ m : ℕ, rng0.floats m = rng0.floats m) ∧
    (∀ m : ℕ, rng0.ints m = rng0.ints m) ∧
    create_suppliers 2 rng0 0 = create_suppliers 2 rng0 0 ∧
    generateAndSearch 2 rng0 0 = generateAndSearch 2 rng0 0 :=
  ⟨fun m => rfl, fun m => rfl,
    (C9_determinism 2 0 rng0 rng0 (fun m => rfl) (fun m => rfl)).1,
    (C9_determinism 2 0 rng0 rng0 (fun m => rfl) (fun m => rfl)).2⟩
